import Mathlib

/-!
Verification of the job-lifecycle core of the Chart Similarity Analyzer
(`src/main.py`).  The in-memory `jobs` dictionary is embedded as an
insertion-ordered association list; each HTTP handler becomes a pure
function from the store (plus its request data) to a result, with
filesystem side effects recorded explicitly and the background analysis
task (`run_analysis`) modelled as a separate step that consumes the
arguments captured at dispatch time.  Raised `HTTPException`s become
`Except.error`; an uncaught Python exception escaping the background
worker becomes a `WorkerErr`.
-/

namespace ChartSim

/-- JSON-like values: the shape of the opaque collaborator result
(`prepare_results_for_json` output) and of the stored `results` field. -/
inductive Json where
  | null : Json
  | bool : Bool → Json
  | num : Int → Json
  | str : String → Json
  | arr : List Json → Json
  | obj : List (String × Json) → Json

/-- Python truthiness of a JSON value (`if job.get("results"):`). -/
def Json.truthy : Json → Bool
  | Json.null => false
  | Json.bool b => b
  | Json.num n => n != 0
  | Json.str s => s != ""
  | Json.arr xs => !xs.isEmpty
  | Json.obj kvs => !kvs.isEmpty

/-- Python dict assignment `d[k] = v` on a JSON object's field list:
replace the value at the first occurrence of `k`, else append. -/
def setKey : List (String × Json) → String → Json → List (String × Json)
  | [], k, v => [(k, v)]
  | (k', v') :: rest, k, v =>
      if k' = k then (k', v) :: rest else (k', v') :: setKey rest k v

/-- First-occurrence lookup in a JSON object's field list. -/
def jsonLookup : List (String × Json) → String → Option Json
  | [], _ => none
  | (k', v') :: rest, k => if k' = k then some v' else jsonLookup rest k

/-- Job status strings used by `main.py`. -/
inductive Status where
  | uploaded : Status
  | processing : Status
  | completed : Status
  | failed : Status
deriving DecidableEq

/-- Request body of `POST /api/analyze/{job_id}` (pydantic `AnalysisParams`,
defaults `fps=1.0`, `detect_color="green"`, `category=None`). -/
structure AnalysisParams where
  fps : Rat := 1
  detect_color : String := "green"
  category : Option String := none

/-- One job record of the `jobs` dictionary.  `results := none` models the
`"results": None` set at upload; `error := none` and `params := none` model
the keys being absent until first written. -/
structure Job where
  id : String
  status : Status
  filename : String
  file_path : String
  created_at : Int
  results : Option Json
  progress : Int
  category : Option String
  params : Option AnalysisParams
  error : Option String

/-- The `jobs` dictionary: insertion-ordered key/record pairs. -/
abbrev Store := List (String × Job)

/-- Dictionary lookup `jobs[job_id]` / `jobs.get(job_id)` (first occurrence). -/
def lookupJob : Store → String → Option Job
  | [], _ => none
  | (k, j) :: rest, i => if k = i then some j else lookupJob rest i

/-- Python `job_id in jobs`. -/
def containsJob (s : Store) (i : String) : Bool :=
  (lookupJob s i).isSome

/-- In-place mutation of the record at a key (`jobs[job_id]["f"] = v`). -/
def updateJob : Store → String → (Job → Job) → Store
  | [], _, _ => []
  | (k, j) :: rest, i, f =>
      if k = i then (k, f j) :: rest else (k, j) :: updateJob rest i f

/-- `jobs.pop(job_id)` / `del jobs[job_id]`: remove the entry at a key. -/
def eraseKey : Store → String → Store
  | [], _ => []
  | (k, j) :: rest, i => if k = i then rest else (k, j) :: eraseKey rest i

/-- `jobs[job_id] = record`: overwrite if present, else append (dicts keep
insertion order). -/
def insertJob (s : Store) (k : String) (j : Job) : Store :=
  if containsJob s k then updateJob s k (fun _ => j) else s ++ [(k, j)]

/-- Errors raised synchronously by the handlers (`HTTPException`):
`invalidInput` is status 400, `notFound` is 404; `storageFailure` stands
for an OS error escaping a filesystem call inside a handler. -/
inductive ApiError where
  | invalidInput : ApiError
  | notFound : ApiError
  | storageFailure : ApiError
deriving DecidableEq

/-- An uncaught Python exception escaping the background worker. -/
inductive WorkerErr where
  | keyError : WorkerErr
deriving DecidableEq

/-- Filesystem side effects performed by the handlers. -/
inductive FsOp where
  | mkdir : String → FsOp
  | writeFile : String → FsOp
  | rmtree : String → FsOp
deriving DecidableEq

/-- Python truthiness of an optional string (`if params.category:`,
`if job["category"]:`). -/
def optStrTruthy : Option String → Bool
  | none => false
  | some s => s != ""

/-- Python truthiness of the stored `results` value
(`None` is falsy; otherwise the value's own truthiness). -/
def truthyOptJson : Option Json → Bool
  | none => false
  | some v => v.truthy

/-- `str.lower()` on a filename. -/
def pyLower (s : String) : String :=
  String.mk (s.data.map Char.toLower)

/-- `str.endswith(suffix)`. -/
def pyEndsWith (s suffix : String) : Bool :=
  suffix.data.isSuffixOf s.data

/-- The extension allow-list of `upload_video`. -/
def allowedExts : List String := [".mp4", ".avi", ".mov", ".mkv"]

/-- `file.filename.lower().endswith(('.mp4', '.avi', '.mov', '.mkv'))`. -/
def hasVideoExt (filename : String) : Bool :=
  allowedExts.any (fun e => pyEndsWith (pyLower filename) e)

/-- `category not in ["gold", "btc", "usdcad", None]` (negated). -/
def validCategory : Option String → Bool
  | none => true
  | some c => ["gold", "btc", "usdcad"].contains c

/-- Response of `POST /api/upload`. -/
structure UploadResponse where
  job_id : String
  filename : String
  status : Status
  category : Option String
deriving DecidableEq

/-- `upload_video` (`POST /api/upload`).  The fresh `uuid4` and
`time.time()` are passed in as `job_id` and `now`; the directory creation
and the file write are recorded as `FsOp`s.  Both validations precede
every side effect, exactly as in the source. -/
def upload_video (jobs : Store) (filename : String) (category : Option String)
    (job_id : String) (now : Int) :
    Except ApiError (Store × List FsOp × UploadResponse) :=
  if ¬ hasVideoExt filename then Except.error ApiError.invalidInput
  else if ¬ validCategory category then Except.error ApiError.invalidInput
  else
    let file_path := "uploads/" ++ job_id ++ "/" ++ filename
    let job : Job :=
      { id := job_id, status := Status.uploaded, filename := filename,
        file_path := file_path, created_at := now, results := none,
        progress := 0, category := category, params := none, error := none }
    Except.ok (insertJob jobs job_id job,
      [FsOp.mkdir ("uploads/" ++ job_id), FsOp.writeFile file_path],
      { job_id := job_id, filename := filename, status := Status.uploaded,
        category := category })

/-- The arguments `analyze_video` hands to `background_tasks.add_task`. -/
structure PendingTask where
  job_id : String
  file_path : String
  output_dir : String
  fps : Rat
  category : Option String

/-- Response of `POST /api/analyze/{job_id}`. -/
structure AnalyzeResponse where
  job_id : String
  status : Status
  category : Option String

/-- `analyze_video` (`POST /api/analyze/{job_id}`).  Note: the handler
performs no validation of `params` beyond pydantic typing; it mutates the
record (status, params, progress, optionally category), creates the
result directory and schedules `run_analysis`. -/
def analyze_video (jobs : Store) (job_id : String) (params : AnalysisParams) :
    Except ApiError (Store × List FsOp × PendingTask × AnalyzeResponse) :=
  match lookupJob jobs job_id with
  | none => Except.error ApiError.notFound
  | some job =>
    let jobs1 := updateJob jobs job_id (fun j =>
      { j with status := Status.processing, params := some params, progress := 0 })
    let jobs2 :=
      if optStrTruthy params.category then
        updateJob jobs1 job_id (fun j => { j with category := params.category })
      else jobs1
    -- `jobs[job_id].get("category")`, read after the optional override
    let cat := if optStrTruthy params.category then params.category else job.category
    let task : PendingTask :=
      { job_id := job_id, file_path := job.file_path,
        output_dir := "results/" ++ job_id, fps := params.fps, category := cat }
    Except.ok (jobs2, [FsOp.mkdir ("results/" ++ job_id)], task,
      { job_id := job_id, status := Status.processing, category := cat })

/-- `update_progress`: the progress hook; a silent no-op when the id has
disappeared from the store. -/
def update_progress (jobs : Store) (job_id : String) (progress : Int) : Store :=
  if containsJob jobs job_id then
    updateJob jobs job_id (fun j => { j with progress := progress })
  else jobs

/-- The percentages the collaborator passes to the progress hook during
its run, applied in order. -/
def applyReports (jobs : Store) (job_id : String) (reports : List Int) : Store :=
  reports.foldl (fun s r => update_progress s job_id r) jobs

/-- Outcome of the opaque collaborator
(`find_most_similar_charts_in_video` + `prepare_results_for_json`):
either a serializable result or a raised exception message. -/
inductive CollabOutcome where
  | success : Json → CollabOutcome
  | failure : String → CollabOutcome

/-- `serializable_results["category"] = category`: succeeds on a dict,
raises `TypeError` otherwise. -/
def setCategoryJson (res : Json) (c : String) : Except String Json :=
  match res with
  | Json.obj kvs => Except.ok (Json.obj (setKey kvs "category" (Json.str c)))
  | _ => Except.error "TypeError"

/-- The `except Exception` handler of `run_analysis`: write
`status=failed` and `error=str(e)`.  On a vanished id, `jobs[job_id]`
itself raises a `KeyError` that nothing catches. -/
def fail_write (jobs : Store) (job_id : String) (msg : String) :
    Except WorkerErr Store :=
  if containsJob jobs job_id then
    Except.ok (updateJob jobs job_id (fun j =>
      { j with status := Status.failed, error := some msg }))
  else Except.error WorkerErr.keyError

/-- `run_analysis`: the background unit of work.  The collaborator first
fires `reports` through the progress hook, then either returns a result
or raises.  On success the category is merged into the result (a
`TypeError` here is caught by the same `except` handler), `results.json`
is written, and the completion field group is committed; a `KeyError` on
the completion write (id deleted meanwhile) is caught by the `except`
handler, whose own write then raises an uncaught `KeyError`. -/
def run_analysis (jobs : Store) (task : PendingTask) (reports : List Int)
    (outcome : CollabOutcome) : Except WorkerErr Store :=
  let jobs1 := applyReports jobs task.job_id reports
  match outcome with
  | CollabOutcome.failure msg => fail_write jobs1 task.job_id msg
  | CollabOutcome.success res =>
    let merged : Except String Json :=
      match task.category with
      | some c => if c != "" then setCategoryJson res c else Except.ok res
      | none => Except.ok res
    match merged with
    | Except.error msg => fail_write jobs1 task.job_id msg
    | Except.ok r =>
      if containsJob jobs1 task.job_id then
        Except.ok (updateJob jobs1 task.job_id (fun j =>
          { j with status := Status.completed, results := some r, progress := 100 }))
      else fail_write jobs1 task.job_id "KeyError"

/-- Response of `GET /api/job/{job_id}`. -/
structure StatusResponse where
  id : String
  status : Status
  filename : String
  progress : Int
  category : Option String
  results : Option Json := none
  error : Option String := none

/-- The in-place mutation `get_job_status` performs on a completed job:
`job["results"]["category"] = job["category"]`, guarded by the result
being attached, the category being truthy, and the results being a dict. -/
def mergeCategoryIntoResults (job : Job) : Job :=
  if job.status = Status.completed ∧ truthyOptJson job.results then
    if optStrTruthy job.category then
      match job.category, job.results with
      | some c, some (Json.obj kvs) =>
          { job with results := some (Json.obj (setKey kvs "category" (Json.str c))) }
      | _, _ => job
    else job
  else job

/-- `get_job_status` (`GET /api/job/{job_id}`).  Returns the possibly
mutated store together with the projection. -/
def get_job_status (jobs : Store) (job_id : String) :
    Except ApiError (Store × StatusResponse) :=
  match lookupJob jobs job_id with
  | none => Except.error ApiError.notFound
  | some job =>
    let job1 := mergeCategoryIntoResults job
    let jobs1 := updateJob jobs job_id (fun _ => job1)
    let base : StatusResponse :=
      { id := job.id, status := job.status, filename := job.filename,
        progress := job.progress, category := job.category }
    let withRes :=
      if job.status = Status.completed ∧ truthyOptJson job.results then
        { base with results := job1.results }
      else base
    let withErr :=
      if job.status = Status.failed ∧ job.error.isSome then
        { withRes with error := job.error }
      else withRes
    Except.ok (jobs1, withErr)

/-- The projection `list_jobs` / `list_jobs_by_category` build per job. -/
structure JobSummary where
  id : String
  status : Status
  filename : String
  created_at : Int
  category : Option String
deriving DecidableEq

/-- Projection of one record. -/
def summarize (j : Job) : JobSummary :=
  { id := j.id, status := j.status, filename := j.filename,
    created_at := j.created_at, category := j.category }

/-- Stable descending insertion by `created_at`: the effect of Python's
stable `list.sort(key=lambda x: x["created_at"], reverse=True)`. -/
def insertByCreatedDesc (x : JobSummary) : List JobSummary → List JobSummary
  | [] => [x]
  | y :: ys =>
      if y.created_at < x.created_at then x :: y :: ys
      else y :: insertByCreatedDesc x ys

/-- Sort newest-first by `created_at`. -/
def sortByCreatedDesc : List JobSummary → List JobSummary
  | [] => []
  | x :: xs => insertByCreatedDesc x (sortByCreatedDesc xs)

/-- `list_jobs` (`GET /api/jobs`): project every record, sort newest
first.  The handler performs no store write. -/
def list_jobs (jobs : Store) : List JobSummary :=
  sortByCreatedDesc (jobs.map (fun kj => summarize kj.2))

/-- `list_jobs_by_category` (`GET /api/jobs/category/{category}`). -/
def list_jobs_by_category (jobs : Store) (category : String) :
    Except ApiError (List JobSummary) :=
  if ¬ ["gold", "btc", "usdcad", "all"].contains category then
    Except.error ApiError.invalidInput
  else
    Except.ok (sortByCreatedDesc
      ((jobs.filter (fun kj =>
          category == "all" || kj.2.category == some category)).map
        (fun kj => summarize kj.2)))

/-- Response of `DELETE /api/job/{job_id}`. -/
structure DeleteResponse where
  status : String
  job_id : String
deriving DecidableEq

/-- `delete_job` (`DELETE /api/job/{job_id}`).  The record is popped
first; the two `shutil.rmtree` calls follow, each modelled as possibly
raising (`uploadRmRaises` / `resultRmRaises`).  The returned store is the
store as left by the handler in every case. -/
def delete_job (jobs : Store) (job_id : String)
    (uploadRmRaises resultRmRaises : Bool) :
    Store × Except ApiError DeleteResponse :=
  if ¬ containsJob jobs job_id then (jobs, Except.error ApiError.notFound)
  else
    let jobs1 := eraseKey jobs job_id
    if uploadRmRaises then (jobs1, Except.error ApiError.storageFailure)
    else if resultRmRaises then (jobs1, Except.error ApiError.storageFailure)
    else (jobs1, Except.ok { status := "deleted", job_id := job_id })

/-- The 24-hour retention window of `cleanup_old_jobs`, in seconds. -/
def retentionSeconds : Int := 24 * 60 * 60

/-- `cleanup_old_jobs` (`GET /api/cleanup`): collect the ids of every job
with `now - created_at > 24*60*60`, then delete each (guarded by
`if job_id in jobs`), counting one per collected id. -/
def cleanup_old_jobs (jobs : Store) (now : Int) : Store × Nat :=
  let jobs_to_remove :=
    (jobs.filter (fun kj => decide (now - kj.2.created_at > retentionSeconds))).map
      Prod.fst
  let store := jobs_to_remove.foldl
    (fun s i => if containsJob s i then eraseKey s i else s) jobs
  (store, jobs_to_remove.length)

/-! ## Store lemmas -/

theorem lookupJob_update_self (s : Store) (k : String) (f : Job → Job) :
    lookupJob (updateJob s k f) k = (lookupJob s k).map f := by
  induction s with
  | nil => simp [updateJob, lookupJob]
  | cons kj rest ih =>
    obtain ⟨k', j'⟩ := kj
    by_cases h : k' = k
    · simp [updateJob, lookupJob, h]
    · simp [updateJob, lookupJob, h, ih]

theorem lookupJob_update_ne (s : Store) (k i : String) (f : Job → Job)
    (h : i ≠ k) : lookupJob (updateJob s k f) i = lookupJob s i := by
  induction s with
  | nil => simp [updateJob, lookupJob]
  | cons kj rest ih =>
    obtain ⟨k', j'⟩ := kj
    by_cases hk : k' = k
    · subst hk
      simp [updateJob, lookupJob, Ne.symm h]
    · by_cases hi : k' = i
      · subst hi
        simp [updateJob, lookupJob, hk, lookupJob]
      · simp [updateJob, lookupJob, hk, hi, ih]

theorem lookupJob_append_single (s : Store) (k : String) (j : Job)
    (h : lookupJob s k = none) : lookupJob (s ++ [(k, j)]) k = some j := by
  induction s with
  | nil => simp [lookupJob]
  | cons kj rest ih =>
    obtain ⟨k', j'⟩ := kj
    by_cases hk : k' = k
    · simp [lookupJob, hk] at h
    · simp [lookupJob, hk] at h ⊢
      exact ih h

theorem lookupJob_insert_self (s : Store) (k : String) (j : Job) :
    lookupJob (insertJob s k j) k = some j := by
  unfold insertJob
  by_cases h : containsJob s k = true
  · rw [if_pos h, lookupJob_update_self]
    unfold containsJob at h
    obtain ⟨x, hx⟩ := Option.isSome_iff_exists.mp h
    rw [hx]
    rfl
  · rw [if_neg h]
    apply lookupJob_append_single
    exact Option.not_isSome_iff_eq_none.mp (by simpa [containsJob] using h)

theorem updateJob_const_self (s : Store) (k : String) (j : Job)
    (h : lookupJob s k = some j) : updateJob s k (fun _ => j) = s := by
  induction s with
  | nil => rfl
  | cons kj rest ih =>
    obtain ⟨k', j'⟩ := kj
    by_cases hk : k' = k
    · subst hk
      simp [lookupJob] at h
      simp [updateJob, h]
    · simp [lookupJob, hk] at h
      simp [updateJob, hk, ih h]

theorem updateJob_of_absent (s : Store) (k : String) (f : Job → Job)
    (h : lookupJob s k = none) : updateJob s k f = s := by
  induction s with
  | nil => rfl
  | cons kj rest ih =>
    obtain ⟨k', j'⟩ := kj
    by_cases hk : k' = k
    · simp [lookupJob, hk] at h
    · simp [lookupJob, hk] at h
      simp [updateJob, hk, ih h]

theorem eraseKey_of_absent (s : Store) (k : String)
    (h : lookupJob s k = none) : eraseKey s k = s := by
  induction s with
  | nil => rfl
  | cons kj rest ih =>
    obtain ⟨k', j'⟩ := kj
    by_cases hk : k' = k
    · simp [lookupJob, hk] at h
    · simp [lookupJob, hk] at h
      simp [eraseKey, hk, ih h]

theorem lookupJob_erase_ne (s : Store) (k i : String) (h : i ≠ k) :
    lookupJob (eraseKey s k) i = lookupJob s i := by
  induction s with
  | nil => rfl
  | cons kj rest ih =>
    obtain ⟨k', j'⟩ := kj
    by_cases hk : k' = k
    · subst hk
      simp [eraseKey, lookupJob, Ne.symm h]
    · by_cases hi : k' = i
      · subst hi
        simp [eraseKey, lookupJob, hk]
      · simp [eraseKey, lookupJob, hk, hi, ih]

theorem lookupJob_eq_none_of_not_mem (s : Store) (k : String)
    (h : k ∉ s.map Prod.fst) : lookupJob s k = none := by
  induction s with
  | nil => rfl
  | cons kj rest ih =>
    obtain ⟨k', j'⟩ := kj
    simp only [List.map_cons, List.mem_cons] at h
    push_neg at h
    simp [lookupJob, Ne.symm h.1, ih h.2]

theorem lookupJob_erase_self_of_nodup (s : Store) (k : String)
    (hnd : (s.map Prod.fst).Nodup) : lookupJob (eraseKey s k) k = none := by
  induction s with
  | nil => rfl
  | cons kj rest ih =>
    obtain ⟨k', j'⟩ := kj
    simp only [List.map_cons, List.nodup_cons] at hnd
    by_cases hk : k' = k
    · subst hk
      simp only [eraseKey, if_pos rfl]
      exact lookupJob_eq_none_of_not_mem rest k' hnd.1
    · simp [eraseKey, lookupJob, hk, ih hnd.2]

/-! ## Claims C4, C6, C9, C10 -/

/-- The job record used as the concrete store inhabitant for C4. -/
def preUploadedJob : Job :=
  { id := "d", status := Status.uploaded, filename := "chart.mp4",
    file_path := "uploads/d/chart.mp4", created_at := 0, results := none,
    progress := 0, category := some "gold", params := none, error := none }

/-- C4 (code bug): `startAnalysis` with a non-positive sampling rate
(`fps = -1`) is accepted: `analyze_video` performs no params validation,
returns success, mutates the record to `status=processing`, `progress=0`,
records the params, and dispatches the analysis with the bad fps. -/
theorem C4_no_fps_validation :
    ((-1 : Rat) ≤ 0)
    ∧ (match analyze_video [("d", preUploadedJob)] "d"
          { fps := -1, detect_color := "green", category := none } with
        | Except.ok (s, _, task, _) =>
            some ((lookupJob s "d").map (fun j => (j.status, j.progress)), task.fps)
        | Except.error _ => none)
      = some (some (Status.processing, 0), -1) := by
  constructor
  · norm_num
  · decide

/-- C6: an upload whose filename fails the (case-insensitive) extension
allow-list, or whose supplied category is outside `{gold, btc, usdcad}`,
is rejected with `InvalidInput` before any side effect: no store entry,
no directory, no file. -/
theorem C6_upload_rejects_invalid (s : Store) (filename : String)
    (category : Option String) (job_id : String) (now : Int)
    (h : hasVideoExt filename = false ∨
         ∃ c, category = some c ∧ c ∉ ["gold", "btc", "usdcad"]) :
    upload_video s filename category job_id now
      = Except.error ApiError.invalidInput := by
  unfold upload_video
  rcases h with h | ⟨c, hc, hmem⟩
  · simp [h]
  · subst hc
    by_cases he : hasVideoExt filename
    · simp [he, validCategory, hmem]
    · simp [he]

theorem C6_witness :
    (hasVideoExt "x.txt" = false ∨
      ∃ c, (some "eth" : Option String) = some c ∧ c ∉ ["gold", "btc", "usdcad"])
    ∧ upload_video [] "x.txt" (some "eth") "w6" 0
        = Except.error ApiError.invalidInput :=
  ⟨Or.inl (by decide),
   C6_upload_rejects_invalid [] "x.txt" (some "eth") "w6" 0 (Or.inl (by decide))⟩

/-- C9: deleting a present id succeeds, removes the record and returns
confirmation; deleting an absent id yields `NotFound` and changes
nothing; hence the second deletion of the same id yields `NotFound`. -/
theorem C9_delete_twice (s : Store) (id : String)
    (hnd : (s.map Prod.fst).Nodup) :
    (∀ j, lookupJob s id = some j →
        delete_job s id false false =
          (eraseKey s id, Except.ok { status := "deleted", job_id := id })
        ∧ lookupJob (eraseKey s id) id = none
        ∧ delete_job (eraseKey s id) id false false =
            (eraseKey s id, Except.error ApiError.notFound))
    ∧ (lookupJob s id = none →
        delete_job s id false false = (s, Except.error ApiError.notFound)) := by
  constructor
  · intro j hj
    have hc : containsJob s id = true := by simp [containsJob, hj]
    have herased : lookupJob (eraseKey s id) id = none :=
      lookupJob_erase_self_of_nodup s id hnd
    refine ⟨?_, herased, ?_⟩
    · unfold delete_job
      simp [hc]
    · unfold delete_job
      have hc2 : containsJob (eraseKey s id) id = false := by
        simp [containsJob, herased]
      simp [hc2]
  · intro h
    unfold delete_job
    simp [containsJob, h]

theorem C9_witness :
    (([("w9", preUploadedJob)] : Store).map Prod.fst).Nodup
    ∧ delete_job [("w9", preUploadedJob)] "w9" false false =
        ([], Except.ok { status := "deleted", job_id := "w9" })
    ∧ delete_job [] "w9" false false = ([], Except.error ApiError.notFound) := by
  refine ⟨by decide, ?_, ?_⟩
  · exact ((C9_delete_twice [("w9", preUploadedJob)] "w9" (by decide)).1
      preUploadedJob rfl).1
  · exact ((C9_delete_twice [("w9", preUploadedJob)] "w9" (by decide)).1
      preUploadedJob rfl).2.2

/-- C10: `delete_job` pops the record from the store before any
filesystem deletion; whatever the outcome of the two directory removals
(including a raised error), the store the handler leaves behind is
exactly the original store without the id — nothing reinserts it. -/
theorem C10_pop_precedes_fs (s : Store) (id : String)
    (uploadRmRaises resultRmRaises : Bool)
    (h : (lookupJob s id).isSome = true) :
    (delete_job s id uploadRmRaises resultRmRaises).1 = eraseKey s id
    ∧ ((s.map Prod.fst).Nodup →
        lookupJob ((delete_job s id uploadRmRaises resultRmRaises).1) id = none) := by
  have hc : containsJob s id = true := h
  have h1 : (delete_job s id uploadRmRaises resultRmRaises).1 = eraseKey s id := by
    unfold delete_job
    cases uploadRmRaises <;> cases resultRmRaises <;> simp [hc]
  refine ⟨h1, fun hnd => ?_⟩
  rw [h1]
  exact lookupJob_erase_self_of_nodup s id hnd

theorem C10_witness :
    ((lookupJob [("wx", preUploadedJob)] "wx").isSome = true)
    ∧ (delete_job [("wx", preUploadedJob)] "wx" true false).1 = []
    ∧ lookupJob (delete_job [("wx", preUploadedJob)] "wx" true false).1 "wx" = none := by
  refine ⟨by decide, ?_, ?_⟩
  · exact (C10_pop_precedes_fs [("wx", preUploadedJob)] "wx" true false (by decide)).1
  · exact (C10_pop_precedes_fs [("wx", preUploadedJob)] "wx" true false (by decide)).2
      (by decide)

/-! ## Claims C7 and C8 -/

theorem foldl_guarded_erase (l : List String) (s : Store) :
    l.foldl (fun s i => if containsJob s i then eraseKey s i else s) s
      = l.foldl (fun s i => eraseKey s i) s := by
  induction l generalizing s with
  | nil => rfl
  | cons i l ih =>
    simp only [List.foldl_cons]
    by_cases h : containsJob s i = true
    · rw [if_pos h, ih]
    · rw [if_neg h, ih, eraseKey_of_absent]
      exact Option.not_isSome_iff_eq_none.mp (by simpa [containsJob] using h)

theorem foldl_erase_cons_ne (l : List String) (k : String) (j : Job) (t : Store)
    (h : ∀ i ∈ l, i ≠ k) :
    l.foldl (fun s i => eraseKey s i) ((k, j) :: t)
      = (k, j) :: l.foldl (fun s i => eraseKey s i) t := by
  induction l generalizing t with
  | nil => rfl
  | cons i l ih =>
    simp only [List.foldl_cons]
    have hik : ¬ k = i := fun hh => h i (List.mem_cons_self i l) hh.symm
    rw [show eraseKey ((k, j) :: t) i = (k, j) :: eraseKey t i from by
      simp [eraseKey, hik]]
    exact ih (eraseKey t i) (fun x hx => h x (List.mem_cons_of_mem i hx))

theorem foldl_erase_filter (p : String × Job → Bool) (s : Store)
    (hnd : (s.map Prod.fst).Nodup) :
    ((s.filter p).map Prod.fst).foldl (fun s i => eraseKey s i) s
      = s.filter (fun kj => !p kj) := by
  induction s with
  | nil => rfl
  | cons kj t ih =>
    obtain ⟨k, j⟩ := kj
    simp only [List.map_cons, List.nodup_cons] at hnd
    by_cases hp : p (k, j) = true
    · rw [List.filter_cons_of_pos hp, List.map_cons, List.foldl_cons]
      rw [show eraseKey ((k, j) :: t) k = t from by simp [eraseKey]]
      rw [ih hnd.2, List.filter_cons_of_neg (by simp [hp])]
    · rw [List.filter_cons_of_neg (by simp [hp])]
      rw [foldl_erase_cons_ne _ k j t (by
        intro i hi
        intro hik
        subst hik
        apply hnd.1
        obtain ⟨⟨k2, j2⟩, hmem, hfst⟩ := List.mem_map.mp hi
        have := List.mem_of_mem_filter hmem
        exact hfst ▸ List.mem_map_of_mem Prod.fst this)]
      rw [ih hnd.2, List.filter_cons_of_pos (by simp [hp])]

/-- C7: for every store contents and current time, the cleanup sweep
removes exactly the jobs with `now - created_at` strictly greater than
the 24-hour retention window (the survivors are exactly the others, in
order), returns the number removed, and re-invoking it immediately with
the same `now` removes zero. -/
theorem C7_cleanup_exact (s : Store) (now : Int)
    (hnd : (s.map Prod.fst).Nodup) :
    (cleanup_old_jobs s now).1
        = s.filter (fun kj => decide (now - kj.2.created_at ≤ retentionSeconds))
    ∧ (cleanup_old_jobs s now).2
        = (s.filter (fun kj => decide (now - kj.2.created_at > retentionSeconds))).length
    ∧ (cleanup_old_jobs (cleanup_old_jobs s now).1 now).2 = 0 := by
  have hnot : ∀ kj : String × Job,
      (!decide (now - kj.2.created_at > retentionSeconds))
        = decide (now - kj.2.created_at ≤ retentionSeconds) := by
    intro kj
    rw [← decide_not, decide_eq_decide]
    exact not_lt
  have h1 : (cleanup_old_jobs s now).1
      = s.filter (fun kj => decide (now - kj.2.created_at ≤ retentionSeconds)) := by
    unfold cleanup_old_jobs
    simp only []
    rw [foldl_guarded_erase, foldl_erase_filter _ s hnd]
    exact List.filter_congr (fun kj _ => hnot kj)
  refine ⟨h1, ?_, ?_⟩
  · unfold cleanup_old_jobs
    simp
  · rw [h1]
    unfold cleanup_old_jobs
    simp only [List.length_map, List.filter_filter]
    rw [show (fun kj : String × Job =>
        decide (now - kj.2.created_at > retentionSeconds)
          && decide (now - kj.2.created_at ≤ retentionSeconds)) = fun _ => false from by
      funext kj
      by_cases h : now - kj.2.created_at > retentionSeconds
      · simp [h, not_le.mpr h]
      · simp [h]]
    simp
theorem insertByCreatedDesc_perm (x : JobSummary) (l : List JobSummary) :
    List.Perm (insertByCreatedDesc x l) (x :: l) := by
  induction l with
  | nil => rfl
  | cons y ys ih =>
    unfold insertByCreatedDesc
    by_cases h : y.created_at < x.created_at
    · rw [if_pos h]
    · rw [if_neg h]
      exact (ih.cons y).trans (List.Perm.swap x y ys)

theorem sortByCreatedDesc_perm (l : List JobSummary) :
    List.Perm (sortByCreatedDesc l) l := by
  induction l with
  | nil => rfl
  | cons x xs ih =>
    unfold sortByCreatedDesc
    exact (insertByCreatedDesc_perm x (sortByCreatedDesc xs)).trans (ih.cons x)

theorem insertByCreatedDesc_pairwise (x : JobSummary) (l : List JobSummary)
    (h : l.Pairwise (fun a b => b.created_at ≤ a.created_at)) :
    (insertByCreatedDesc x l).Pairwise (fun a b => b.created_at ≤ a.created_at) := by
  induction l with
  | nil => simp [insertByCreatedDesc]
  | cons y ys ih =>
    rw [List.pairwise_cons] at h
    unfold insertByCreatedDesc
    by_cases hlt : y.created_at < x.created_at
    · rw [if_pos hlt]
      refine List.Pairwise.cons ?_ (List.Pairwise.cons h.1 h.2)
      intro z hz
      rcases List.mem_cons.mp hz with hz | hz
      · exact hz ▸ le_of_lt hlt
      · exact le_trans (h.1 z hz) (le_of_lt hlt)
    · rw [if_neg hlt]
      refine List.Pairwise.cons ?_ (ih h.2)
      intro z hz
      rcases List.mem_cons.mp ((insertByCreatedDesc_perm x ys).mem_iff.mp hz) with hz | hz
      · exact hz ▸ not_lt.mp hlt
      · exact h.1 z hz

theorem sortByCreatedDesc_pairwise (l : List JobSummary) :
    (sortByCreatedDesc l).Pairwise (fun a b => b.created_at ≤ a.created_at) := by
  induction l with
  | nil => exact List.Pairwise.nil
  | cons x xs ih =>
    exact insertByCreatedDesc_pairwise x (sortByCreatedDesc xs) ih

theorem pairwise_gt_of_nodup_created (l : List JobSummary)
    (hs : l.Pairwise (fun a b => b.created_at ≤ a.created_at))
    (hd : (l.map (fun x => x.created_at)).Nodup) :
    l.Pairwise (fun a b => b.created_at < a.created_at) := by
  rw [List.Nodup, List.pairwise_map] at hd
  exact (hs.and hd).imp (fun h => lt_of_le_of_ne h.1 (Ne.symm h.2))

/-- C8: for every store whose jobs have pairwise distinct creation
times, the unfiltered listing — and every filtered listing the category
endpoint accepts, "all" meaning no filter — is strictly ordered by
`created_at` descending, newest first. -/
theorem C8_listing_sorted (s : Store) (category : String)
    (hd : (s.map (fun kj => kj.2.created_at)).Nodup) :
    (list_jobs s).Pairwise (fun a b => b.created_at < a.created_at)
    ∧ ∀ l, list_jobs_by_category s category = Except.ok l →
        l.Pairwise (fun a b => b.created_at < a.created_at) := by
  constructor
  · apply pairwise_gt_of_nodup_created _ (sortByCreatedDesc_pairwise _)
    have hperm := (sortByCreatedDesc_perm (s.map (fun kj => summarize kj.2))).map
      (fun x => x.created_at)
    apply hperm.nodup_iff.mpr
    have : (s.map (fun kj => summarize kj.2)).map (fun x => x.created_at)
        = s.map (fun kj => kj.2.created_at) := by
      rw [List.map_map]
      rfl
    rw [this]
    exact hd
  · intro l hl
    unfold list_jobs_by_category at hl
    by_cases hc : ¬ ["gold", "btc", "usdcad", "all"].contains category = true
    · rw [if_pos hc] at hl
      cases hl
    · rw [if_neg hc] at hl
      cases hl
      apply pairwise_gt_of_nodup_created _ (sortByCreatedDesc_pairwise _)
      set q : String × Job → Bool :=
        fun kj => category == "all" || kj.2.category == some category with hq
      have hperm := (sortByCreatedDesc_perm ((s.filter q).map
        (fun kj => summarize kj.2))).map (fun x => x.created_at)
      apply hperm.nodup_iff.mpr
      have heq : ((s.filter q).map (fun kj => summarize kj.2)).map
          (fun x => x.created_at) = (s.filter q).map (fun kj => kj.2.created_at) := by
        rw [List.map_map]
        rfl
      rw [heq]
      have hsub : List.Sublist ((s.filter q).map (fun kj => kj.2.created_at))
          (s.map (fun kj => kj.2.created_at)) :=
        (List.filter_sublist s).map (fun kj => kj.2.created_at)
      exact hd.sublist hsub


/-- A stale job (created at time 0) for the cleanup witness. -/
def staleJob : Job :=
  { id := "old", status := Status.uploaded, filename := "old.mp4",
    file_path := "uploads/old/old.mp4", created_at := 0, results := none,
    progress := 0, category := none, params := none, error := none }

/-- A fresh job (created at time 100000) for the cleanup witness. -/
def freshJob : Job :=
  { id := "new", status := Status.processing, filename := "new.mp4",
    file_path := "uploads/new/new.mp4", created_at := 100000, results := none,
    progress := 40, category := some "btc", params := none, error := none }

theorem C7_witness :
    ((([("old", staleJob), ("new", freshJob)] : Store).map Prod.fst).Nodup)
    ∧ ((cleanup_old_jobs [("old", staleJob), ("new", freshJob)] 90000).1
        = ([("old", staleJob), ("new", freshJob)] : Store).filter
            (fun kj => decide (90000 - kj.2.created_at ≤ retentionSeconds))
      ∧ (cleanup_old_jobs [("old", staleJob), ("new", freshJob)] 90000).2
          = (([("old", staleJob), ("new", freshJob)] : Store).filter
              (fun kj => decide (90000 - kj.2.created_at > retentionSeconds))).length
      ∧ (cleanup_old_jobs
          (cleanup_old_jobs [("old", staleJob), ("new", freshJob)] 90000).1 90000).2 = 0) :=
  ⟨by decide, C7_cleanup_exact [("old", staleJob), ("new", freshJob)] 90000 (by decide)⟩

/-- Listing witness jobs with distinct creation times. -/
def earlyJob : Job :=
  { id := "e1", status := Status.uploaded, filename := "e1.mp4",
    file_path := "uploads/e1/e1.mp4", created_at := 5, results := none,
    progress := 0, category := some "gold", params := none, error := none }

def lateJob : Job :=
  { id := "e2", status := Status.uploaded, filename := "e2.mp4",
    file_path := "uploads/e2/e2.mp4", created_at := 9, results := none,
    progress := 0, category := some "btc", params := none, error := none }

theorem C8_witness :
    ((([("e1", earlyJob), ("e2", lateJob)] : Store).map
        (fun kj => kj.2.created_at)).Nodup)
    ∧ (list_jobs [("e1", earlyJob), ("e2", lateJob)]).Pairwise
        (fun a b => b.created_at < a.created_at) :=
  ⟨by decide,
   (C8_listing_sorted [("e1", earlyJob), ("e2", lateJob)] "all" (by decide)).1⟩

/-! ## Claim C3 -/

theorem update_progress_absent (s : Store) (k : String) (r : Int)
    (h : lookupJob s k = none) : update_progress s k r = s := by
  unfold update_progress
  simp [containsJob, h]

theorem applyReports_absent (s : Store) (k : String) (rs : List Int)
    (h : lookupJob s k = none) : applyReports s k rs = s := by
  induction rs with
  | nil => rfl
  | cons r rs ih =>
    unfold applyReports at ih ⊢
    simp only [List.foldl_cons]
    rw [update_progress_absent s k r h]
    exact ih

theorem fail_write_absent (s : Store) (k m : String)
    (h : lookupJob s k = none) :
    fail_write s k m = Except.error WorkerErr.keyError := by
  unfold fail_write
  simp [containsJob, h]

/-- The in-flight task of a job that has been deleted, for C3. -/
def orphanTask : PendingTask :=
  { job_id := "gone", file_path := "uploads/gone/chart.mp4",
    output_dir := "results/gone", fps := 2, category := some "gold" }

/-- C3 (counterexample): with the job deleted (empty store), the worker's
completion write is not a silent no-op: `jobs[job_id]` raises `KeyError`,
the `except` handler catches it, and the handler's own failure write
raises an uncaught `KeyError` — `run_analysis` ends in an uncaught
exception instead of dropping the update. -/
theorem C3_counterexample :
    (match run_analysis [] orphanTask [50]
        (CollabOutcome.success (Json.obj [("bestMatch", Json.str "frame_12")])) with
      | Except.error e => some e
      | Except.ok _ => none) = some WorkerErr.keyError := by decide

/-- C3 (amended): once the record has disappeared, every progress update
the worker performs is indeed a silent no-op, but the terminal store
write is not: for every collaborator outcome, `run_analysis` on the
vanished id raises an uncaught `KeyError` (the completion write's
`KeyError` is caught and converted into a failure write that itself
raises). -/
theorem C3_amended (s : Store) (task : PendingTask) (reports : List Int)
    (outcome : CollabOutcome) (r : Int)
    (h : lookupJob s task.job_id = none) :
    update_progress s task.job_id r = s
    ∧ applyReports s task.job_id reports = s
    ∧ run_analysis s task reports outcome = Except.error WorkerErr.keyError := by
  have hap : applyReports s task.job_id reports = s :=
    applyReports_absent _ _ _ h
  refine ⟨update_progress_absent _ _ r h, hap, ?_⟩
  unfold run_analysis
  rw [hap]
  cases outcome with
  | failure msg => exact fail_write_absent s _ msg h
  | success res =>
    simp only []
    split
    · exact fail_write_absent s _ _ h
    · rw [if_neg (by simp [containsJob, h])]
      exact fail_write_absent s _ _ h

theorem C3_amended_witness :
    lookupJob ([] : Store) orphanTask.job_id = none
    ∧ update_progress ([] : Store) orphanTask.job_id 75 = []
    ∧ run_analysis [] orphanTask [75] (CollabOutcome.failure "boom")
        = Except.error WorkerErr.keyError :=
  ⟨rfl,
   (C3_amended [] orphanTask [75] (CollabOutcome.failure "boom") 75 rfl).1,
   (C3_amended [] orphanTask [75] (CollabOutcome.failure "boom") 75 rfl).2.2⟩

/-! ## Worker-step lemmas -/

theorem getLastD_eq_or_mem (rs : List Int) (d : Int) :
    rs.getLastD d = d ∨ rs.getLastD d ∈ rs := by
  induction rs generalizing d with
  | nil => exact Or.inl rfl
  | cons r rs ih =>
    rw [List.getLastD_cons]
    rcases ih r with h | h
    · exact Or.inr (by rw [h]; exact List.mem_cons_self r rs)
    · exact Or.inr (List.mem_cons_of_mem r h)

theorem lookupJob_update_progress (s : Store) (k : String) (r : Int) :
    lookupJob (update_progress s k r) k
      = (lookupJob s k).map (fun j => { j with progress := r }) := by
  unfold update_progress
  by_cases h : containsJob s k = true
  · rw [if_pos h, lookupJob_update_self]
  · rw [if_neg h]
    have : lookupJob s k = none :=
      Option.not_isSome_iff_eq_none.mp (by simpa [containsJob] using h)
    rw [this]
    rfl

theorem lookupJob_applyReports (s : Store) (k : String) (rs : List Int) :
    lookupJob (applyReports s k rs) k
      = (lookupJob s k).map (fun j => { j with progress := rs.getLastD j.progress }) := by
  induction rs generalizing s with
  | nil =>
    show lookupJob s k = _
    cases h : lookupJob s k
    · rfl
    · rfl
  | cons r rs ih =>
    show lookupJob (applyReports (update_progress s k r) k rs) k = _
    rw [ih, lookupJob_update_progress]
    cases h : lookupJob s k
    · rfl
    · simp [List.getLastD_cons, List.getLast?_cons, List.getLastD_eq_getLast?]

theorem lookupJob_applyReports_ne (s : Store) (k i : String) (rs : List Int)
    (h : i ≠ k) : lookupJob (applyReports s k rs) i = lookupJob s i := by
  induction rs generalizing s with
  | nil => rfl
  | cons r rs ih =>
    show lookupJob (applyReports (update_progress s k r) k rs) i = _
    rw [ih]
    unfold update_progress
    by_cases hc : containsJob s k = true
    · rw [if_pos hc, lookupJob_update_ne s k i _ h]
    · rw [if_neg hc]

/-! ## Claim C1 -/

/-- The claimed record-level invariant of C1: the `results` value is
present (non-`None`) iff the job is `completed`, and the `error` field is
present iff the job is `failed`. -/
def recInv (j : Job) : Prop :=
  (j.results.isSome = true ↔ j.status = Status.completed)
  ∧ (j.error.isSome = true ↔ j.status = Status.failed)

instance (j : Job) : Decidable (recInv j) := by
  unfold recInv
  infer_instance

/-- A job that has not gone through a terminal transition. -/
def nonTerminal (j : Job) : Prop :=
  j.status ≠ Status.completed ∧ j.status ≠ Status.failed

instance (j : Job) : Decidable (nonTerminal j) := by
  unfold nonTerminal
  infer_instance

/-- The C1 counterexample trace: upload, start analysis, let the run
complete (committing `results`), then call `startAnalysis` a second time
on the same id. -/
def repeatedAnalysisState : Except ApiError Store := do
  let (s1, _, _) ← upload_video [] "chart.mp4" (some "gold") "a" 0
  let (s2, _, task, _) ← analyze_video s1 "a"
    { fps := 2, detect_color := "green", category := none }
  let s3 ← (run_analysis s2 task [50]
      (CollabOutcome.success (Json.obj [("bestMatch", Json.str "frame_12")]))).mapError
    (fun _ => ApiError.storageFailure)
  let (s4, _, _, _) ← analyze_video s3 "a"
    { fps := 2, detect_color := "green", category := none }
  pure s4

/-- The job record observed after that trace, projected to status and
results-presence. -/
def repeatedAnalysisObserved : Option (Status × Bool) :=
  match repeatedAnalysisState with
  | Except.ok s => (lookupJob s "a").map (fun j => (j.status, j.results.isSome))
  | Except.error _ => none

/-- C1 (counterexample): after a repeated `startAnalysis` on an id whose
first run completed, the observed record has `status = processing` while
`results` is still present — `analyze_video` never clears the stale
`results` (nor `error`), so the claimed equivalence fails at that
observation point. -/
theorem C1_counterexample :
    repeatedAnalysisObserved = some (Status.processing, true)
    ∧ Status.processing ≠ Status.completed := by
  constructor
  · decide
  · decide



/-- C1 (amended): the two presence equivalences do hold at every
observation point of a job whose history has no prior terminal run: the
freshly uploaded record satisfies them; `startAnalysis` preserves them on
a non-terminal record (the counterexample shows it breaks them on a
terminal one, since stale `results`/`error` are never cleared); progress
updates preserve them; and the worker's terminal commit establishes them
again from a non-terminal record. -/
theorem C1_amended :
    (∀ s fn cat id now s1 fx resp,
        upload_video s fn cat id now = Except.ok (s1, fx, resp) →
        ∀ j1, lookupJob s1 id = some j1 → recInv j1 ∧ nonTerminal j1)
    ∧ (∀ s id p s1 fx task resp j,
        analyze_video s id p = Except.ok (s1, fx, task, resp) →
        lookupJob s id = some j → recInv j → nonTerminal j →
        ∀ j1, lookupJob s1 id = some j1 → recInv j1 ∧ nonTerminal j1)
    ∧ (∀ s id pr j, lookupJob s id = some j → recInv j ∧ nonTerminal j →
        ∀ j1, lookupJob (update_progress s id pr) id = some j1 →
          recInv j1 ∧ nonTerminal j1)
    ∧ (∀ s task rs oc s1 j,
        run_analysis s task rs oc = Except.ok s1 →
        lookupJob s task.job_id = some j → recInv j → nonTerminal j →
        ∀ j1, lookupJob s1 task.job_id = some j1 → recInv j1) := by
  refine ⟨?_, ?_, ?_, ?_⟩
  · intro s fn cat id now s1 fx resp h j1 hj1
    unfold upload_video at h
    split at h
    · cases h
    · split at h
      · cases h
      · simp only [Except.ok.injEq, Prod.mk.injEq] at h
        obtain ⟨hs1, -, -⟩ := h
        subst hs1
        rw [lookupJob_insert_self] at hj1
        injection hj1 with hj1
        subst hj1
        exact ⟨⟨by simp, by simp⟩, by simp [nonTerminal]⟩
  · intro s id p s1 fx task resp j h hj hrec hnt j1 hj1
    have hres : j.results.isSome = false := by
      have hh : ¬ j.results.isSome = true := fun hh => hnt.1 (hrec.1.mp hh)
      simpa using hh
    have herr : j.error.isSome = false := by
      have hh : ¬ j.error.isSome = true := fun hh => hnt.2 (hrec.2.mp hh)
      simpa using hh
    unfold analyze_video at h
    rw [hj] at h
    simp only [Except.ok.injEq, Prod.mk.injEq] at h
    obtain ⟨hs1, -, -, -⟩ := h
    subst hs1
    by_cases hcat : optStrTruthy p.category = true
    · rw [if_pos hcat] at hj1
      rw [lookupJob_update_self, lookupJob_update_self, hj] at hj1
      injection hj1 with hj1
      subst hj1
      exact ⟨⟨by simp [hres], by simp [herr]⟩, by simp [nonTerminal]⟩
    · rw [if_neg hcat] at hj1
      rw [lookupJob_update_self, hj] at hj1
      injection hj1 with hj1
      subst hj1
      exact ⟨⟨by simp [hres], by simp [herr]⟩, by simp [nonTerminal]⟩
  · intro s id pr j hj hinv j1 hj1
    rw [lookupJob_update_progress, hj] at hj1
    injection hj1 with hj1
    subst hj1
    exact hinv
  · intro s task rs oc s1 j hrun hj hrec hnt j1 hj1
    have hres : j.results.isSome = false := by
      have hh : ¬ j.results.isSome = true := fun hh => hnt.1 (hrec.1.mp hh)
      simpa using hh
    have herr : j.error.isSome = false := by
      have hh : ¬ j.error.isSome = true := fun hh => hnt.2 (hrec.2.mp hh)
      simpa using hh
    have hmid : lookupJob (applyReports s task.job_id rs) task.job_id
        = some { j with progress := rs.getLastD j.progress } := by
      rw [lookupJob_applyReports, hj]
      rfl
    unfold run_analysis at hrun
    cases oc with
    | failure msg =>
      simp only [] at hrun
      unfold fail_write at hrun
      rw [if_pos (by simp [containsJob, hmid])] at hrun
      rw [Except.ok.injEq] at hrun
      subst hrun
      rw [lookupJob_update_self, hmid] at hj1
      injection hj1 with hj1
      subst hj1
      exact ⟨by simp [hres], by simp⟩
    | success res =>
      simp only [] at hrun
      split at hrun
      · unfold fail_write at hrun
        rw [if_pos (by simp [containsJob, hmid])] at hrun
        rw [Except.ok.injEq] at hrun
        subst hrun
        rw [lookupJob_update_self, hmid] at hj1
        injection hj1 with hj1
        subst hj1
        exact ⟨by simp [hres], by simp⟩
      · rw [if_pos (by simp [containsJob, hmid])] at hrun
        rw [Except.ok.injEq] at hrun
        subst hrun
        rw [lookupJob_update_self, hmid] at hj1
        injection hj1 with hj1
        subst hj1
        exact ⟨by simp, by simp [herr]⟩



/-- The record created by the witness upload for C1. -/
def w1job : Job :=
  { id := "w1", status := Status.uploaded, filename := "chart.mp4",
    file_path := "uploads/w1/chart.mp4", created_at := 0, results := none,
    progress := 0, category := some "gold", params := none, error := none }

theorem C1_amended_witness :
    upload_video [] "chart.mp4" (some "gold") "w1" 0
      = Except.ok ([("w1", w1job)],
          [FsOp.mkdir "uploads/w1", FsOp.writeFile "uploads/w1/chart.mp4"],
          { job_id := "w1", filename := "chart.mp4", status := Status.uploaded,
            category := some "gold" })
    ∧ (recInv w1job ∧ nonTerminal w1job) :=
  ⟨rfl, C1_amended.1 [] "chart.mp4" (some "gold") "w1" 0 _ _ _ rfl w1job rfl⟩


/-- The C2 counterexample trace: upload, start analysis, then let the
collaborator report 150 through the progress hook. -/
def overflowProgressState : Except ApiError Store := do
  let (s1, _, _) ← upload_video [] "chart.mp4" (some "gold") "b" 0
  let (s2, _, task, _) ← analyze_video s1 "b"
    { fps := 2, detect_color := "green", category := none }
  pure (update_progress s2 task.job_id 150)

/-- Status and progress observed via the status query after that trace. -/
def overflowProgressObserved : Option (Status × Int) :=
  match overflowProgressState with
  | Except.ok s =>
    match get_job_status s "b" with
    | Except.ok (_, resp) => some (resp.status, resp.progress)
    | Except.error _ => none
  | Except.error _ => none

/-- C2 (counterexample): `update_progress` stores the collaborator's
value verbatim, so after a report of 150 the status query shows progress
150 on a `processing` job — outside `[0,100]`, refuting the claim for
arbitrary integer report sequences. -/
theorem C2_counterexample :
    overflowProgressObserved = some (Status.processing, 150)
    ∧ ¬ (150 : Int) ≤ 100 :=
  ⟨by decide, by decide⟩

/-- The claimed progress invariant of C2: within `[0,100]` and equal to
100 exactly when the job is `completed`. -/
def progressInv (j : Job) : Prop :=
  0 ≤ j.progress ∧ j.progress ≤ 100 ∧ (j.progress = 100 ↔ j.status = Status.completed)

/-- C2 (amended): the reset-to-0 on the transition into `processing` and
the forcing to 100 on completion hold unconditionally, and the full
invariant (progress within `[0,100]`, equal to 100 exactly when
`completed`) holds at every observation point provided every percentage
the collaborator reports lies in `[0,100)`; the code applies no clamping,
so an out-of-range report is stored verbatim (see the counterexample). -/
theorem C2_amended :
    (∀ s fn cat id now s1 fx resp,
        upload_video s fn cat id now = Except.ok (s1, fx, resp) →
        ∀ j1, lookupJob s1 id = some j1 → j1.progress = 0 ∧ progressInv j1)
    ∧ (∀ s id p s1 fx task resp,
        analyze_video s id p = Except.ok (s1, fx, task, resp) →
        ∀ j1, lookupJob s1 id = some j1 →
          j1.progress = 0 ∧ j1.status = Status.processing ∧ progressInv j1)
    ∧ (∀ s id pr j, lookupJob s id = some j → j.status ≠ Status.completed →
        0 ≤ pr → pr < 100 →
        ∀ j1, lookupJob (update_progress s id pr) id = some j1 →
          progressInv j1 ∧ j1.status = j.status)
    ∧ (∀ s task rs oc s1,
        run_analysis s task rs oc = Except.ok s1 →
        ∀ j1, lookupJob s1 task.job_id = some j1 →
          j1.status = Status.completed → j1.progress = 100)
    ∧ (∀ s task rs oc s1 j,
        run_analysis s task rs oc = Except.ok s1 →
        lookupJob s task.job_id = some j → progressInv j →
        j.status ≠ Status.completed →
        (∀ r ∈ rs, 0 ≤ r ∧ r < 100) →
        ∀ j1, lookupJob s1 task.job_id = some j1 → progressInv j1) := by
  refine ⟨?_, ?_, ?_, ?_, ?_⟩
  · intro s fn cat id now s1 fx resp h j1 hj1
    unfold upload_video at h
    split at h
    · cases h
    · split at h
      · cases h
      · simp only [Except.ok.injEq, Prod.mk.injEq] at h
        obtain ⟨hs1, -, -⟩ := h
        subst hs1
        rw [lookupJob_insert_self] at hj1
        injection hj1 with hj1
        subst hj1
        exact ⟨rfl, by norm_num, by norm_num, by simp⟩
  · intro s id p s1 fx task resp h j1 hj1
    unfold analyze_video at h
    rcases hj : lookupJob s id with - | j
    · rw [hj] at h
      cases h
    · rw [hj] at h
      simp only [Except.ok.injEq, Prod.mk.injEq] at h
      obtain ⟨hs1, -, -, -⟩ := h
      subst hs1
      by_cases hcat : optStrTruthy p.category = true
      · rw [if_pos hcat] at hj1
        rw [lookupJob_update_self, lookupJob_update_self, hj] at hj1
        injection hj1 with hj1
        subst hj1
        exact ⟨rfl, rfl, by norm_num, by norm_num, by simp⟩
      · rw [if_neg hcat] at hj1
        rw [lookupJob_update_self, hj] at hj1
        injection hj1 with hj1
        subst hj1
        exact ⟨rfl, rfl, by norm_num, by norm_num, by simp⟩
  · intro s id pr j hj hst h0 h100 j1 hj1
    rw [lookupJob_update_progress, hj] at hj1
    injection hj1 with hj1
    subst hj1
    refine ⟨⟨h0, le_of_lt h100, ?_⟩, rfl⟩
    constructor
    · intro hp
      exact absurd hp (ne_of_lt h100)
    · intro hc
      exact absurd hc hst
  · intro s task rs oc s1 hrun j1 hj1 hst
    unfold run_analysis at hrun
    cases oc with
    | failure msg =>
      simp only [] at hrun
      unfold fail_write at hrun
      split at hrun
      · rename_i hcond
        obtain ⟨jm, hjm⟩ := Option.isSome_iff_exists.mp hcond
        rw [Except.ok.injEq] at hrun
        subst hrun
        rw [lookupJob_update_self, hjm] at hj1
        injection hj1 with hj1
        subst hj1
        cases hst
      · cases hrun
    | success res =>
      simp only [] at hrun
      split at hrun
      · unfold fail_write at hrun
        split at hrun
        · rename_i hcond
          obtain ⟨jm, hjm⟩ := Option.isSome_iff_exists.mp hcond
          rw [Except.ok.injEq] at hrun
          subst hrun
          rw [lookupJob_update_self, hjm] at hj1
          injection hj1 with hj1
          subst hj1
          cases hst
        · cases hrun
      · split at hrun
        · rename_i hcond
          obtain ⟨jm, hjm⟩ := Option.isSome_iff_exists.mp hcond
          rw [Except.ok.injEq] at hrun
          subst hrun
          rw [lookupJob_update_self, hjm] at hj1
          injection hj1 with hj1
          subst hj1
          rfl
        · unfold fail_write at hrun
          split at hrun
          · rename_i hcond hcond2
            exact absurd hcond2 hcond
          · cases hrun
  · intro s task rs oc s1 j hrun hj hinv hst hrs j1 hj1
    have hmid : lookupJob (applyReports s task.job_id rs) task.job_id
        = some { j with progress := rs.getLastD j.progress } := by
      rw [lookupJob_applyReports, hj]
      rfl
    have hp0 : 0 ≤ rs.getLastD j.progress := by
      rcases getLastD_eq_or_mem rs j.progress with h | h
      · rw [h]
        exact hinv.1
      · exact (hrs _ h).1
    have hple : rs.getLastD j.progress ≤ 100 := by
      rcases getLastD_eq_or_mem rs j.progress with h | h
      · rw [h]
        exact hinv.2.1
      · exact le_of_lt (hrs _ h).2
    have hpne : rs.getLastD j.progress ≠ 100 := by
      rcases getLastD_eq_or_mem rs j.progress with h | h
      · rw [h]
        intro hc
        exact hst (hinv.2.2.mp hc)
      · exact ne_of_lt (hrs _ h).2
    unfold run_analysis at hrun
    cases oc with
    | failure msg =>
      simp only [] at hrun
      unfold fail_write at hrun
      rw [if_pos (by simp [containsJob, hmid])] at hrun
      rw [Except.ok.injEq] at hrun
      subst hrun
      rw [lookupJob_update_self, hmid] at hj1
      injection hj1 with hj1
      subst hj1
      refine ⟨hp0, hple, ?_, ?_⟩
      · intro hp
        exact absurd hp hpne
      · intro hc
        cases hc
    | success res =>
      simp only [] at hrun
      split at hrun
      · unfold fail_write at hrun
        rw [if_pos (by simp [containsJob, hmid])] at hrun
        rw [Except.ok.injEq] at hrun
        subst hrun
        rw [lookupJob_update_self, hmid] at hj1
        injection hj1 with hj1
        subst hj1
        refine ⟨hp0, hple, ?_, ?_⟩
        · intro hp
          exact absurd hp hpne
        · intro hc
          cases hc
      · rw [if_pos (by simp [containsJob, hmid])] at hrun
        rw [Except.ok.injEq] at hrun
        subst hrun
        rw [lookupJob_update_self, hmid] at hj1
        injection hj1 with hj1
        subst hj1
        exact ⟨by norm_num, by norm_num, by simp⟩



/-- The uploaded record used by the C2 witness. -/
def w2job : Job :=
  { id := "w2", status := Status.uploaded, filename := "chart.mp4",
    file_path := "uploads/w2/chart.mp4", created_at := 0, results := none,
    progress := 0, category := some "gold", params := none, error := none }

/-- The record after the witness `startAnalysis`. -/
def w2processing : Job :=
  { id := "w2", status := Status.processing, filename := "chart.mp4",
    file_path := "uploads/w2/chart.mp4", created_at := 0, results := none,
    progress := 0, category := some "gold",
    params := some { fps := 2, detect_color := "green", category := none },
    error := none }

theorem C2_amended_witness :
    w2processing.progress = 0 ∧ w2processing.status = Status.processing
    ∧ progressInv w2processing :=
  C2_amended.2.1 [("w2", w2job)] "w2"
    { fps := 2, detect_color := "green", category := none } _ _ _ _ rfl
    w2processing rfl



/-! ## Claim C5 -/

/-- Projection used to observe the mutation `get_job_status` performs:
the value stored under the key "category" of the job record's own
`results` dict, if any. -/
def resultsCategory (j : Job) : Option String :=
  match j.results with
  | some (Json.obj kvs) =>
    match jsonLookup kvs "category" with
    | some (Json.str c) => some c
    | _ => none
  | _ => none

/-- A completed job whose stored results do not yet carry a category key:
the state a concurrent completion can leave behind (the worker merges the
dispatch-time category, which can differ from the record's current one),
and in any case a store state the Job Store contract admits. -/
def completedNoCatJob : Job :=
  { id := "e", status := Status.completed, filename := "chart.mp4",
    file_path := "uploads/e/chart.mp4", created_at := 0,
    results := some (Json.obj [("bestMatch", Json.str "frame_12")]),
    progress := 100, category := some "gold", params := none, error := none }

/-- The store left behind by the status query on that job. -/
def storeAfterGet : Option Store :=
  match get_job_status [("e", completedNoCatJob)] "e" with
  | Except.ok (s1, _) => some s1
  | Except.error _ => none

/-- C5 (counterexample): `get_job_status` is not read-only — on a
completed job with truthy results and a truthy category it executes
`job["results"]["category"] = job["category"]`, mutating the stored
record: the stored results gain a "category" entry they did not have
before the call. -/
theorem C5_counterexample :
    (storeAfterGet.bind (fun s => (lookupJob s "e").map resultsCategory))
      = some (some "gold")
    ∧ resultsCategory completedNoCatJob = none
    ∧ (storeAfterGet.bind (fun s => lookupJob s "e")) ≠ some completedNoCatJob := by
  refine ⟨by decide, by decide, ?_⟩
  intro h
  have h2 : (storeAfterGet.bind (fun s => lookupJob s "e")).map resultsCategory
      = (some completedNoCatJob).map resultsCategory := by
    rw [h]
  have hL : (storeAfterGet.bind (fun s => lookupJob s "e")).map resultsCategory
      = some (some "gold") := by decide
  have hR : (some completedNoCatJob).map resultsCategory
      = some (none : Option String) := by decide
  rw [hL, hR] at h2
  cases h2

/-- C5 (amended): `listJobs` builds a fresh projection list and writes
nothing (its embedding is a pure function of the store); `getJob` leaves
every other record untouched and leaves the queried record unchanged
except for the category merge into a completed job's results dict — in
particular it is read-only whenever that merge is the identity on the
record, e.g. for any job that is not `completed`. -/
theorem C5_amended (s : Store) (id : String) (s1 : Store) (r : StatusResponse)
    (j : Job) (h : get_job_status s id = Except.ok (s1, r))
    (hj : lookupJob s id = some j) :
    lookupJob s1 id = some (mergeCategoryIntoResults j)
    ∧ (∀ i, i ≠ id → lookupJob s1 i = lookupJob s i)
    ∧ (mergeCategoryIntoResults j = j → s1 = s)
    ∧ (j.status ≠ Status.completed → s1 = s) := by
  unfold get_job_status at h
  rw [hj] at h
  simp only [Except.ok.injEq, Prod.mk.injEq] at h
  obtain ⟨hs1, -⟩ := h
  subst hs1
  have hmerge_id : mergeCategoryIntoResults j = j → updateJob s id (fun _ => mergeCategoryIntoResults j) = s := by
    intro hid
    rw [hid]
    exact updateJob_const_self s id j hj
  refine ⟨?_, ?_, hmerge_id, ?_⟩
  · rw [lookupJob_update_self, hj]
    rfl
  · intro i hi
    exact lookupJob_update_ne s id i _ hi
  · intro hst
    apply hmerge_id
    unfold mergeCategoryIntoResults
    rw [if_neg]
    intro hc
    exact hst hc.1

/-- The non-completed record used by the C5 witness. -/
def w5job : Job :=
  { id := "w5", status := Status.uploaded, filename := "chart.mp4",
    file_path := "uploads/w5/chart.mp4", created_at := 0, results := none,
    progress := 0, category := some "gold", params := none, error := none }

theorem C5_amended_witness :
    Status.uploaded ≠ Status.completed
    ∧ (match get_job_status [("w5", w5job)] "w5" with
        | Except.ok (s1, _) => s1
        | Except.error _ => []) = [("w5", w5job)] :=
  ⟨by decide,
   (C5_amended [("w5", w5job)] "w5" _ _ w5job rfl rfl).2.2.2 (by decide)⟩


end ChartSim
